import Mathlib

/-
  Verification of the BusTub buffer pool core:
    - `LRUReplacer`   (src/buffer/lru_replacer.cpp)
    - `ClockReplacer` (src/buffer/clock_replacer.cpp)
    - `BufferPoolManager` (src/buffer/buffer_pool_manager.cpp)

  The C++ is embedded shallowly: each method becomes a pure Lean function on an
  explicit state record, returning its result, the successor state, and the list
  of calls it issued to the external disk manager (`DiskOp`).  Machine `int`
  fields that the code can drive negative (`pin_count_`) are modelled as `Int`;
  identifiers that are always non-negative array indices are modelled as `Nat`.
  The page payload buffer is modelled as an opaque `Nat` value (`data`), with
  `zeroData` standing for the zeroed buffer produced by `Page::ResetMemory`.
-/

namespace BusTub

/-- The zeroed payload buffer.  Modelled from the spec: the `Page` class and its
`ResetMemory` member are declared in a header outside the given sources; the
spec says "Each frame's payload buffer is zeroed when the frame is (re)assigned
to a page", so `ResetMemory` zeroes the payload only (the separate assignments
to `page_id_`, `pin_count_` and `is_dirty_` that follow `ResetMemory()` in
`FetchPageImpl`/`NewPageImpl` show it does not touch those fields). -/
def zeroData : Nat := 0

/-- One frame of the pool (`Page` object): the held page id (`-1` = invalid
sentinel), the payload buffer, the pin count (a C++ `int`, so modelled as `Int`
because `UnpinPageImpl` decrements it unconditionally), and the dirty bit. -/
structure Page where
  page_id : Int
  data : Nat
  pin_count : Int
  is_dirty : Bool
deriving DecidableEq, Repr

/-- A default-constructed `Page` (as produced by `new Page[pool_size]`):
invalid page id, zeroed payload, pin count 0, not dirty. -/
def defaultPage : Page := { page_id := -1, data := zeroData, pin_count := 0, is_dirty := false }

/-- Embeds `Page::ResetMemory()`: zero the payload buffer (see `zeroData`). -/
def Page.ResetMemory (p : Page) : Page := { p with data := zeroData }

/-! ## LRU replacer (src/buffer/lru_replacer.cpp)

`frame_list_` is the doubly linked list of evictable frames, head first
(`push_front` inserts at the head, `Victim` takes `back()`).  `iter_map_`
holds exactly the iterators of the list nodes, so `iter_map_.count(f)` equals
membership of `f` in `frame_list_`; the map is an O(1) index and carries no
further state, so it is not represented separately. -/

structure LRUReplacer where
  frame_list : List Nat
deriving DecidableEq, Repr

/-- Embeds `LRUReplacer::Victim`: if the list is empty fail; otherwise remove and
return the back (least recently inserted) element. -/
def LRUReplacer.Victim (r : LRUReplacer) : Option (Nat × LRUReplacer) :=
  match r.frame_list.getLast? with
  | none => none
  | some last => some (last, ⟨r.frame_list.dropLast⟩)

/-- Embeds `LRUReplacer::Pin`: if the frame is present, erase its (unique) node. -/
def LRUReplacer.Pin (r : LRUReplacer) (f : Nat) : LRUReplacer :=
  if r.frame_list.contains f then ⟨r.frame_list.erase f⟩ else r

/-- Embeds `LRUReplacer::Unpin`: if the frame is already present do nothing,
otherwise push it at the front. -/
def LRUReplacer.Unpin (r : LRUReplacer) (f : Nat) : LRUReplacer :=
  if r.frame_list.contains f then r else ⟨f :: r.frame_list⟩

/-- Embeds `LRUReplacer::Size`. -/
def LRUReplacer.Size (r : LRUReplacer) : Nat := r.frame_list.length

/-! ## CLOCK replacer (src/src/buffer/clock_replacer.cpp)

`frame_list_` is the circular list of evictable frames; `ref_map_` assigns each
listed frame its reference bit, and `iter_map_` again just indexes the nodes.
Both maps are keyed by the listed frame ids, so the state is modelled as the
list of (frame id, reference bit) pairs together with the clock hand, an index
into the list (`clock_hand = length` is the `end()` iterator). -/

structure ClockReplacer where
  frame_list : List (Nat × Bool)
  clock_hand : Nat
deriving DecidableEq, Repr

/-- The body of the `while (true)` loop of `ClockReplacer::Victim`, with an
explicit fuel so the function is structurally recursive; the development proves
(`victimLoop_fuel_mono`, `clockScanF_succeeds`) that fuel `length + 1` is never
exhausted and that any larger fuel gives the same result, so the fueled
function agrees with the unbounded C++ loop.  Each iteration wraps the hand if
it sits at `end()`, then inspects the entry under the hand: if its reference
bit is clear that entry is the victim — it is unlinked as in `PinThread`
(the hand, which points at it, pre-advances and after the erase indexes the
following entry) — otherwise the bit is cleared and the hand advances. -/
def ClockReplacer.victimLoop : Nat → List (Nat × Bool) → Nat → Option (Nat × List (Nat × Bool) × Nat)
  | 0, _, _ => none
  | fuel + 1, entries, hand =>
    let h := if hand = entries.length then 0 else hand
    match entries[h]? with
    | none => none
    | some (f, b) =>
      if b then ClockReplacer.victimLoop fuel (entries.set h (f, false)) (h + 1)
      else some (f, entries.eraseIdx h, h)

/-- Embeds `ClockReplacer::Victim`: fail on an empty list, otherwise run the clock
sweep (see `victimLoop`). -/
def ClockReplacer.Victim (r : ClockReplacer) : Option (Nat × ClockReplacer) :=
  if r.frame_list.isEmpty then none
  else
    match ClockReplacer.victimLoop (r.frame_list.length + 1) r.frame_list r.clock_hand with
    | none => none
    | some (f, e, h) => some (f, ⟨e, h⟩)

/-- Embeds `ClockReplacer::PinThread`: if the frame is listed, remove its entry; if
the clock hand pointed at that entry it pre-advances, and indices after the
erased position shift down by one. -/
def ClockReplacer.PinThread (r : ClockReplacer) (f : Nat) : ClockReplacer :=
  match r.frame_list.findIdx? (fun e => e.1 == f) with
  | none => r
  | some i =>
    let h1 := if r.clock_hand = i then i + 1 else r.clock_hand
    let h2 := if i < h1 then h1 - 1 else h1
    ⟨r.frame_list.eraseIdx i, h2⟩

/-- Embeds `ClockReplacer::Pin`. -/
def ClockReplacer.Pin (r : ClockReplacer) (f : Nat) : ClockReplacer := r.PinThread f

/-- Embeds `ClockReplacer::Unpin`: set the reference bit if the frame is already
listed, otherwise append it at the tail with the bit set. -/
def ClockReplacer.Unpin (r : ClockReplacer) (f : Nat) : ClockReplacer :=
  if r.frame_list.any (fun e => e.1 == f) then
    ⟨r.frame_list.map (fun e => if e.1 == f then (e.1, true) else e), r.clock_hand⟩
  else
    ⟨r.frame_list ++ [(f, true)], r.clock_hand⟩

/-- Embeds `ClockReplacer::Size`. -/
def ClockReplacer.Size (r : ClockReplacer) : Nat := r.frame_list.length

/-! ## Buffer pool manager (src/buffer/buffer_pool_manager.cpp) -/

/-- A call issued to the external `DiskManager`. -/
inductive DiskOp where
  | readPage (page_id : Int)
  | writePage (page_id : Int) (d : Nat)
  | allocatePage (page_id : Int)
  | deallocatePage (page_id : Int)
deriving DecidableEq, Repr

/-- Erase a key from the `unordered_map` page table (keys are unique). -/
def eraseKey (k : Int) (l : List (Int × Nat)) : List (Int × Nat) :=
  l.filter (fun p => p.1 ≠ k)

/-- Insert or assign, the effect of `page_table_[k] = v`. -/
def insertKey (k : Int) (v : Nat) (l : List (Int × Nat)) : List (Int × Nat) :=
  (k, v) :: eraseKey k l

/-- The mutable state of `BufferPoolManager`: the frame array `pages_`, the
(hard-wired LRU) replacer, the page table and the free list.  The
`DiskManager` and `LogManager` handles are external collaborators; reads are
passed in as a function and all disk calls are recorded as a `DiskOp` trace. -/
structure BufferPoolManager where
  pool_size : Nat
  pages : List Page
  replacer : LRUReplacer
  page_table : List (Int × Nat)
  free_list : List Nat
deriving DecidableEq, Repr

/-- The constructor: `pool_size` default frames, an empty replacer, an empty
page table, and every frame on the free list in index order. -/
def BufferPoolManager.mkNew (pool_size : Nat) : BufferPoolManager :=
  { pool_size := pool_size
    pages := List.replicate pool_size defaultPage
    replacer := ⟨[]⟩
    page_table := []
    free_list := List.range pool_size }

/-- Read the frame `pages_ + f` (reads out of range never occur in the embedded code paths;
`defaultPage` is returned defensively). -/
def BufferPoolManager.getPage (s : BufferPoolManager) (f : Nat) : Page :=
  s.pages.getD f defaultPage

/-- Write frame `f` of the frame array. -/
def BufferPoolManager.setPage (s : BufferPoolManager) (f : Nat) (p : Page) : BufferPoolManager :=
  { s with pages := s.pages.set f p }

/-- Embeds `BufferPoolManager::PickVictimFrame`: pop the free list if non-empty;
otherwise ask the replacer for a victim, erase the victim's page-table entry,
and write its payload back if dirty.  `none` models the `-1` sentinel. -/
def BufferPoolManager.PickVictimFrame (s : BufferPoolManager) :
    Option Nat × BufferPoolManager × List DiskOp :=
  match s.free_list with
  | f :: rest => (some f, { s with free_list := rest }, [])
  | [] =>
    match s.replacer.Victim with
    | none => (none, s, [])
    | some (f, rep) =>
      let page := s.getPage f
      let pid := page.page_id
      let s1 := { s with replacer := rep, page_table := eraseKey pid s.page_table }
      let tr := if page.is_dirty then [DiskOp.writePage pid page.data] else []
      (some f, s1, tr)

/-- Embeds `BufferPoolManager::FetchPageImpl`.  On a hit the frame is returned as is;
`replacer_->Pin` is called only when its pin count is not positive, and the pin
count itself is not modified.  On a miss a frame is obtained from
`PickVictimFrame`, the new mapping is installed, the frame metadata is set
(`page_id`, zeroed payload, `pin_count = 1`, clean) and the payload is read
from disk.  The returned `Option Nat` models the returned `Page*` (the frame
index, `none` = `nullptr`). -/
def BufferPoolManager.FetchPageImpl (s : BufferPoolManager) (disk : Int → Nat) (page_id : Int) :
    Option Nat × BufferPoolManager × List DiskOp :=
  match s.page_table.lookup page_id with
  | some f =>
    let page := s.getPage f
    if page.pin_count > 0 then (some f, s, [])
    else (some f, { s with replacer := s.replacer.Pin f }, [])
  | none =>
    match s.PickVictimFrame with
    | (none, s1, tr) => (none, s1, tr)
    | (some f, s1, tr) =>
      let s2 := { s1 with page_table := insertKey page_id f s1.page_table }
      let p1 := (s1.getPage f).ResetMemory
      let p2 := { p1 with page_id := page_id, pin_count := 1, is_dirty := false }
      let p3 := { p2 with data := disk page_id }
      (some f, s2.setPage f p3, tr ++ [DiskOp.readPage page_id])

/-- Embeds `BufferPoolManager::UnpinPageImpl`: unknown page returns `false`;
otherwise the pin count is decremented unconditionally, the frame is handed to
the replacer when the new count is `≤ 0`, and the dirty flag is OR-ed in. -/
def BufferPoolManager.UnpinPageImpl (s : BufferPoolManager) (page_id : Int) (dirty : Bool) :
    Bool × BufferPoolManager × List DiskOp :=
  match s.page_table.lookup page_id with
  | none => (false, s, [])
  | some f =>
    let page := s.getPage f
    let p1 := { page with pin_count := page.pin_count - 1 }
    let s1 := s.setPage f p1
    let s2 := if p1.pin_count ≤ 0 then { s1 with replacer := s1.replacer.Unpin f } else s1
    (true, s2.setPage f { p1 with is_dirty := p1.is_dirty || dirty }, [])

/-- Embeds `BufferPoolManager::FlushPageImpl`: unknown page returns `false`;
otherwise write the payload to disk and clear the dirty bit. -/
def BufferPoolManager.FlushPageImpl (s : BufferPoolManager) (page_id : Int) :
    Bool × BufferPoolManager × List DiskOp :=
  match s.page_table.lookup page_id with
  | none => (false, s, [])
  | some f =>
    let page := s.getPage f
    (true, s.setPage f { page with is_dirty := false }, [DiskOp.writePage page_id page.data])

/-- Embeds `BufferPoolManager::AllPagesPinned`: true iff every frame of the array has
a positive pin count. -/
def BufferPoolManager.AllPagesPinned (s : BufferPoolManager) : Bool :=
  s.pages.all (fun p => decide (0 < p.pin_count))

/-- Embeds `BufferPoolManager::NewPageImpl`.  `new_pid` is the id the external
`AllocatePage` returns.  The result pairs the written out-parameter with the
returned frame (`none` = `nullptr`). -/
def BufferPoolManager.NewPageImpl (s : BufferPoolManager) (new_pid : Int) :
    Option (Int × Nat) × BufferPoolManager × List DiskOp :=
  if s.AllPagesPinned then (none, s, [])
  else
    match s.PickVictimFrame with
    | (none, s1, tr) => (none, s1, tr)
    | (some f, s1, tr) =>
      let s2 := { s1 with page_table := insertKey new_pid f s1.page_table }
      let p1 := (s1.getPage f).ResetMemory
      let p2 := { p1 with page_id := new_pid, pin_count := 1, is_dirty := false }
      (some (new_pid, f), s2.setPage f p2, tr ++ [DiskOp.allocatePage new_pid])

/-- Embeds `BufferPoolManager::DeletePageImpl`.  A page id absent from the page table
returns `false`; a pinned page returns `false`; otherwise the frame is pushed
on the free list, the mapping is erased, the payload is zeroed
(`ResetMemory`), the id is deallocated and `true` is returned.  Note the code
neither calls `replacer_->Pin` nor writes a dirty payload back nor clears
`is_dirty_`. -/
def BufferPoolManager.DeletePageImpl (s : BufferPoolManager) (page_id : Int) :
    Bool × BufferPoolManager × List DiskOp :=
  match s.page_table.lookup page_id with
  | none => (false, s, [])
  | some f =>
    let page := s.getPage f
    if page.pin_count > 0 then (false, s, [])
    else
      let s1 := { s with free_list := s.free_list ++ [f],
                         page_table := eraseKey page_id s.page_table }
      (true, s1.setPage f page.ResetMemory, [DiskOp.deallocatePage page_id])

/-- Embeds `BufferPoolManager::FlushAllPagesImpl`: the body is empty. -/
def BufferPoolManager.FlushAllPagesImpl (s : BufferPoolManager) :
    BufferPoolManager × List DiskOp :=
  (s, [])

/-! ## Concrete executions

A deterministic disk (every page reads as zero) and a short run of public
operations from a freshly constructed pool of size 1.  Every state below is
reachable from the constructor by public calls only. -/

/-- A concrete disk content function: every page reads as the zero payload. -/
def disk0 : Int → Nat := fun _ => 0

/-- A fresh pool with one frame. -/
def bpm0 : BufferPoolManager := BufferPoolManager.mkNew 1

/-- After `NewPage` allocating page 1: page 1 pinned (count 1) in frame 0. -/
def bpm1 : BufferPoolManager := (bpm0.NewPageImpl 1).2.1

/-- After `Unpin(1, dirty := true)`: page 1 resident in frame 0, pin count 0,
dirty, frame 0 in the replacer. -/
def bpm2 : BufferPoolManager := (bpm1.UnpinPageImpl 1 true).2.1

/-- After `DeletePage(1)`: frame 0 on the free list — and still in the
replacer, its dirty bit still set, its payload never written back. -/
def bpm3 : BufferPoolManager := (bpm2.DeletePageImpl 1).2.1

/-- After `NewPage` allocating page 2: page 2 pinned (count 1) in frame 0,
taken from the free list — while frame 0 still sits in the replacer. -/
def bpm4 : BufferPoolManager := (bpm3.NewPageImpl 2).2.1

/-! ## LRU victim ordering -/

/-- Run `k` consecutive `LRUReplacer::Victim` calls, collecting the returned
frames in order; a failing call stops the run. -/
def LRUReplacer.collectVictims : Nat → LRUReplacer → List Nat × LRUReplacer
  | 0, r => ([], r)
  | k + 1, r =>
    match r.Victim with
    | none => ([], r)
    | some (f, r1) =>
      let t := LRUReplacer.collectVictims k r1
      (f :: t.1, t.2)

/-- Call `LRUReplacer::Unpin` on each listed frame in order. -/
def unpinSeq (l : List Nat) (r : LRUReplacer) : LRUReplacer :=
  l.foldl LRUReplacer.Unpin r

theorem unpinSeq_frame_list : ∀ (l acc : List Nat), l.Nodup → (∀ f ∈ l, f ∉ acc) →
    (unpinSeq l ⟨acc⟩).frame_list = l.reverse ++ acc := by
  intro l
  induction l with
  | nil => intro acc _ _; simp [unpinSeq]
  | cons f t ih =>
    intro acc hnd hdis
    have hf : f ∉ acc := hdis f (by simp)
    have hstep : unpinSeq (f :: t) ⟨acc⟩ = unpinSeq t ⟨f :: acc⟩ := by
      simp only [unpinSeq, List.foldl_cons]
      congr 1
      simp [LRUReplacer.Unpin, hf]
    rw [hstep, ih (f :: acc) hnd.of_cons]
    · simp
    · intro g hg
      simp only [List.mem_cons, not_or]
      exact ⟨fun he => (List.nodup_cons.mp hnd).1 (he ▸ hg), hdis g (by simp [hg])⟩

theorem collectVictims_reverse : ∀ (m : List Nat),
    LRUReplacer.collectVictims m.length ⟨m⟩ = (m.reverse, ⟨[]⟩) := by
  intro m
  induction m using List.reverseRecOn with
  | nil => rfl
  | append_singleton t a ih =>
    have hlen : (t ++ [a]).length = t.length + 1 := by simp
    rw [hlen]
    simp only [LRUReplacer.collectVictims, LRUReplacer.Victim, List.getLast?_concat,
      List.dropLast_concat, ih]
    simp

/-- C8: if, starting from an empty LRU replacer, `Unpin` is called on distinct
frames `f1, …, fk` in that order with no intervening `Pin` or `Victim`, then
the next `k` `Victim` calls all succeed and return `f1, …, fk` in that order,
leaving the replacer empty (`Unpin` pushes at the head, `Victim` removes the
tail). -/
theorem lru_unpin_victim_fifo (l : List Nat) (hnd : l.Nodup) :
    LRUReplacer.collectVictims l.length (unpinSeq l ⟨[]⟩) = (l, ⟨[]⟩) := by
  have h1 : (unpinSeq l ⟨[]⟩).frame_list = l.reverse := by
    simpa using unpinSeq_frame_list l [] hnd (by simp)
  have h2 : unpinSeq l ⟨[]⟩ = ⟨l.reverse⟩ := by
    rw [← h1]
  rw [h2, show l.length = l.reverse.length by simp, collectVictims_reverse,
    List.reverse_reverse]

/-- Witness for C8 on the concrete unpin order `[1, 2, 3]`. -/
theorem lru_unpin_victim_fifo_witness :
    LRUReplacer.collectVictims 3 (unpinSeq [1, 2, 3] ⟨[]⟩) = ([1, 2, 3], ⟨[]⟩) :=
  lru_unpin_victim_fifo [1, 2, 3] (by decide)

/-! ## CLOCK victim analysis

The circular scan of `ClockReplacer::Victim` is analysed through the
*rotation* of the entry list at the (wrapped) hand position: the list of
entries in the order the hand will visit them.  `clockScanF` performs the
sweep directly on the rotation; `victimLoop_sim` proves it simulates
`victimLoop`. -/

/-- The entries of a circular list in hand-visit order, starting at index `h`
(`h = l.length`, the end iterator, rotates to the full list, matching the
wrap to `begin()`). -/
def rotateAt (l : List (Nat × Bool)) (h : Nat) : List (Nat × Bool) :=
  l.drop h ++ l.take h

/-- Number of entries with a set reference bit. -/
def countTrue (l : List (Nat × Bool)) : Nat := (l.filter (fun e => e.2)).length

/-- The clock sweep on the rotated list: inspect the head; a clear bit makes
it the victim, a set bit is cleared and the entry moves behind the rest. -/
def clockScanF : Nat → List (Nat × Bool) → Option (Nat × List (Nat × Bool))
  | 0, _ => none
  | _ + 1, [] => none
  | fuel + 1, (f, b) :: rest =>
    if b then clockScanF fuel (rest ++ [(f, false)]) else some (f, rest)

theorem countTrue_le_length (l : List (Nat × Bool)) : countTrue l ≤ l.length :=
  List.length_filter_le _ _

theorem countTrue_pos (l : List (Nat × Bool)) (f : Nat) (hm : (f, true) ∈ l) :
    0 < countTrue l :=
  List.length_pos_of_mem (List.mem_filter.mpr ⟨hm, rfl⟩)

theorem countTrue_set_false : ∀ (l : List (Nat × Bool)) (i : Nat) (f : Nat),
    l[i]? = some (f, true) → countTrue (l.set i (f, false)) + 1 = countTrue l := by
  intro l
  induction l with
  | nil => intro i f h; simp at h
  | cons e t ih =>
    intro i f h
    cases i with
    | zero =>
      simp only [List.getElem?_cons_zero, Option.some.injEq] at h
      subst h
      simp [countTrue, List.filter_cons]
    | succ n =>
      simp only [List.getElem?_cons_succ] at h
      have := ih n f h
      rcases e with ⟨g, bg⟩
      cases bg <;> simp [countTrue, List.filter_cons] at this ⊢ <;> omega

theorem rotateAt_length (l : List (Nat × Bool)) (h : Nat) :
    (rotateAt l h).length = l.length := by
  simp [rotateAt]
  omega

theorem rotateAt_eraseIdx (e : List (Nat × Bool)) (h0 : Nat) (hlt : h0 < e.length) :
    rotateAt (e.eraseIdx h0) h0 = e.drop (h0 + 1) ++ e.take h0 := by
  rw [List.eraseIdx_eq_take_drop_succ, rotateAt,
    List.drop_left' (by simp [List.length_take]; omega),
    List.take_left' (by simp [List.length_take]; omega)]

theorem rotateAt_set (e : List (Nat × Bool)) (h0 : Nat) (f : Nat) (hlt : h0 < e.length) :
    rotateAt (e.set h0 (f, false)) (h0 + 1) =
      (e.drop (h0 + 1) ++ e.take h0) ++ [(f, false)] := by
  rw [List.set_eq_take_cons_drop _ hlt, rotateAt,
    show e.take h0 ++ (f, false) :: e.drop (h0 + 1)
        = (e.take h0 ++ [(f, false)]) ++ e.drop (h0 + 1) by simp,
    List.drop_left' (by simp [List.length_take]; omega),
    List.take_left' (by simp [List.length_take]; omega)]
  simp

theorem victimLoop_succ_none (fuel : Nat) (e : List (Nat × Bool)) (h : Nat)
    (hg : e[if h = e.length then 0 else h]? = none) :
    ClockReplacer.victimLoop (fuel + 1) e h = none := by
  simp only [ClockReplacer.victimLoop, hg]

theorem victimLoop_succ_true (fuel : Nat) (e : List (Nat × Bool)) (h h0 f : Nat)
    (hh0 : h0 = if h = e.length then 0 else h)
    (hg : e[h0]? = some (f, true)) :
    ClockReplacer.victimLoop (fuel + 1) e h
      = ClockReplacer.victimLoop fuel (e.set h0 (f, false)) (h0 + 1) := by
  subst hh0
  simp only [ClockReplacer.victimLoop, hg, if_true]

theorem victimLoop_succ_false (fuel : Nat) (e : List (Nat × Bool)) (h h0 f : Nat)
    (hh0 : h0 = if h = e.length then 0 else h)
    (hg : e[h0]? = some (f, false)) :
    ClockReplacer.victimLoop (fuel + 1) e h = some (f, e.eraseIdx h0, h0) := by
  subst hh0
  simp [ClockReplacer.victimLoop, hg]

/-- The result of `victimLoop` does not depend on the fuel once the fuel
exceeds the number of set reference bits: every non-final iteration clears
one bit.  This is what makes the fueled embedding of the unbounded C++
`while (true)` loop faithful. -/
theorem victimLoop_fuel_mono : ∀ (n fuel fuel' : Nat) (e : List (Nat × Bool)) (h : Nat),
    countTrue e ≤ n → n < fuel → n < fuel' →
    ClockReplacer.victimLoop fuel e h = ClockReplacer.victimLoop fuel' e h := by
  intro n
  induction n with
  | zero =>
    intro fuel fuel' e h hc h1 h2
    obtain ⟨mf, rfl⟩ : ∃ mf, fuel = mf + 1 := ⟨fuel - 1, by omega⟩
    obtain ⟨mg, rfl⟩ : ∃ mg, fuel' = mg + 1 := ⟨fuel' - 1, by omega⟩
    cases hget : e[if h = e.length then 0 else h]? with
    | none =>
      rw [victimLoop_succ_none mf e h hget, victimLoop_succ_none mg e h hget]
    | some fb =>
      rcases fb with ⟨f, b⟩
      cases b with
      | false =>
        rw [victimLoop_succ_false mf e h _ f rfl hget,
          victimLoop_succ_false mg e h _ f rfl hget]
      | true =>
        exfalso
        have hmem : (f, true) ∈ e := List.getElem?_mem hget
        have := countTrue_pos e f hmem
        omega
  | succ m ih =>
    intro fuel fuel' e h hc h1 h2
    obtain ⟨mf, rfl⟩ : ∃ mf, fuel = mf + 1 := ⟨fuel - 1, by omega⟩
    obtain ⟨mg, rfl⟩ : ∃ mg, fuel' = mg + 1 := ⟨fuel' - 1, by omega⟩
    cases hget : e[if h = e.length then 0 else h]? with
    | none =>
      rw [victimLoop_succ_none mf e h hget, victimLoop_succ_none mg e h hget]
    | some fb =>
      rcases fb with ⟨f, b⟩
      cases b with
      | false =>
        rw [victimLoop_succ_false mf e h _ f rfl hget,
          victimLoop_succ_false mg e h _ f rfl hget]
      | true =>
        rw [victimLoop_succ_true mf e h _ f rfl hget,
          victimLoop_succ_true mg e h _ f rfl hget]
        apply ih
        · have := countTrue_set_false e (if h = e.length then 0 else h) f hget
          omega
        · omega
        · omega

/-- The rotated sweep succeeds whenever the list is non-empty and the fuel
exceeds the number of set bits. -/
theorem clockScanF_succeeds : ∀ (fuel : Nat) (l : List (Nat × Bool)),
    countTrue l < fuel → l ≠ [] → ∃ f r, clockScanF fuel l = some (f, r) := by
  intro fuel
  induction fuel with
  | zero => intro l hc _; omega
  | succ fuel ih =>
    intro l hc hne
    match l with
    | (f, b) :: rest =>
      cases b with
      | false => exact ⟨f, rest, by simp [clockScanF]⟩
      | true =>
        have hcount : countTrue (rest ++ [(f, false)]) < fuel := by
          have h1 : countTrue ((f, true) :: rest) = countTrue rest + 1 := by
            simp [countTrue, List.filter_cons]
          have h2 : countTrue (rest ++ [(f, false)]) = countTrue rest := by
            simp [countTrue, List.filter_append]
          omega
        obtain ⟨g, r, hr⟩ := ih (rest ++ [(f, false)]) hcount (by simp)
        exact ⟨g, r, by simp [clockScanF, hr]⟩

/-- If the rotation decomposes as set-bit entries `pre` followed by a
clear-bit entry `(f, false)`, the sweep victimises `f`, clears every bit of
`pre`, and leaves those entries behind the rest in hand order. -/
theorem clockScanF_firstFalse : ∀ (pre : List (Nat × Bool)) (fuel : Nat) (f : Nat)
    (rest : List (Nat × Bool)), pre.length < fuel → (∀ e ∈ pre, e.2 = true) →
    clockScanF fuel (pre ++ (f, false) :: rest)
      = some (f, rest ++ pre.map (fun e => (e.1, false))) := by
  intro pre
  induction pre with
  | nil =>
    intro fuel f rest hf _
    obtain ⟨mf, rfl⟩ : ∃ mf, fuel = mf + 1 := ⟨fuel - 1, by omega⟩
    simp [clockScanF]
  | cons e pre ih =>
    intro fuel f rest hf hpre
    obtain ⟨mf, rfl⟩ : ∃ mf, fuel = mf + 1 := ⟨fuel - 1, by omega⟩
    rcases e with ⟨g, bg⟩
    have hbg : bg = true := hpre (g, bg) (by simp)
    subst hbg
    have hassoc : (pre ++ (f, false) :: rest) ++ [(g, false)]
        = pre ++ (f, false) :: (rest ++ [(g, false)]) := by simp
    calc clockScanF (mf + 1) (((g, true) :: pre) ++ (f, false) :: rest)
        = clockScanF mf (pre ++ (f, false) :: (rest ++ [(g, false)])) := by
          simp [clockScanF]
      _ = some (f, (rest ++ [(g, false)]) ++ pre.map (fun e => (e.1, false))) := by
          exact ih mf f (rest ++ [(g, false)]) (by simp at hf ⊢; omega)
            (fun e he => hpre e (by simp [he]))
      _ = some (f, rest ++ ((g, true) :: pre).map (fun e => (e.1, false))) := by
          simp

/-- Simulation: `clockScanF` on the rotation simulates `victimLoop` on the list with the
hand index: the victims agree and the post-states correspond by rotation. -/
theorem victimLoop_sim : ∀ (fuel : Nat) (e : List (Nat × Bool)) (h : Nat), h ≤ e.length →
    clockScanF fuel (rotateAt e h) =
      (ClockReplacer.victimLoop fuel e h).map (fun t => (t.1, rotateAt t.2.1 t.2.2)) := by
  intro fuel
  induction fuel with
  | zero => intro e h _; simp [clockScanF, ClockReplacer.victimLoop]
  | succ fuel ih =>
    intro e h hle
    by_cases hne : e = []
    · subst hne
      simp [clockScanF, ClockReplacer.victimLoop, rotateAt]
    · have hlen : 0 < e.length := List.length_pos.mpr hne
      have hlt : (if h = e.length then 0 else h) < e.length := by
        split <;> omega
      have hrot : rotateAt e h = rotateAt e (if h = e.length then 0 else h) := by
        split
        · rename_i heq; rw [heq]; simp [rotateAt]
        · rfl
      obtain ⟨⟨f, b⟩, hget⟩ : ∃ fb, e[if h = e.length then 0 else h]? = some fb :=
        ⟨e[if h = e.length then 0 else h], List.getElem?_eq_getElem hlt⟩
      have hval : e[if h = e.length then 0 else h] = (f, b) := by
        have h2 := List.getElem?_eq_getElem hlt
        rw [hget] at h2
        exact (Option.some.inj h2).symm
      have hdecomp : rotateAt e (if h = e.length then 0 else h)
          = (f, b) :: (e.drop ((if h = e.length then 0 else h) + 1)
              ++ e.take (if h = e.length then 0 else h)) := by
        rw [rotateAt, List.drop_eq_getElem_cons hlt, hval]
        simp
      cases b with
      | false =>
        rw [victimLoop_succ_false fuel e h _ f rfl hget, hrot, hdecomp]
        simp only [clockScanF, Option.map_some']
        rw [rotateAt_eraseIdx e _ hlt]
        simp
      | true =>
        rw [victimLoop_succ_true fuel e h _ f rfl hget, hrot, hdecomp]
        have hlen_set : (if h = e.length then 0 else h) + 1
            ≤ (e.set (if h = e.length then 0 else h) (f, false)).length := by
          simp only [List.length_set]
          omega
        rw [← ih (e.set (if h = e.length then 0 else h) (f, false)) _ hlen_set,
          rotateAt_set e _ f hlt]
        simp [clockScanF]

/-- Transfer a successful rotated sweep to `ClockReplacer::Victim`: the same
victim is returned, the post-state corresponds by rotation, and any fuel of at
least `length + 1` computes the same loop result (termination of the unbounded
loop within one wrap plus one step, i.e. at most two passes of the hand). -/
theorem victim_of_scan (s : ClockReplacer) (hh : s.clock_hand ≤ s.frame_list.length)
    (f : Nat) (r : List (Nat × Bool))
    (hscan : clockScanF (s.frame_list.length + 1) (rotateAt s.frame_list s.clock_hand)
      = some (f, r)) :
    ∃ s', s.Victim = some (f, s') ∧ rotateAt s'.frame_list s'.clock_hand = r ∧
      ∀ fuel, s.frame_list.length + 1 ≤ fuel →
        ClockReplacer.victimLoop fuel s.frame_list s.clock_hand
          = some (f, s'.frame_list, s'.clock_hand) := by
  have hsim := victimLoop_sim (s.frame_list.length + 1) s.frame_list s.clock_hand hh
  rw [hscan] at hsim
  obtain ⟨t, hloop, hmap⟩ := (Option.map_eq_some'.mp hsim.symm)
  obtain ⟨f1, e1, h1⟩ := t
  simp only [Prod.mk.injEq] at hmap
  obtain ⟨hf1, hrot1⟩ := hmap
  subst hf1
  have hne : s.frame_list ≠ [] := by
    intro hnil
    rw [hnil] at hscan
    simp [rotateAt, clockScanF] at hscan
  refine ⟨⟨e1, h1⟩, ?_, hrot1, ?_⟩
  · rw [ClockReplacer.Victim, if_neg (by simp [hne]), hloop]
  · intro fuel hfuel
    rw [victimLoop_fuel_mono s.frame_list.length fuel (s.frame_list.length + 1)
      s.frame_list s.clock_hand (countTrue_le_length _) (by omega) (by omega), hloop]

/-! ## Claim theorems -/

/-- C1: refuted on the code.  `bpm2` is reachable (NewPage 1; Unpin(1, true))
and holds page 1 in frame 0 with pin count 0.  `FetchPageImpl 1` hits the page
table and returns frame 0, yet the frame's pin count stays 0 — the hit path of
`FetchPageImpl` never increments `pin_count_`, contradicting both the spec and
the function's own comment "If P exists, pin it and return it immediately";
in particular this Fetch returns a non-null frame whose pin count is < 1. -/
theorem fetch_hit_does_not_increment_pin :
    (bpm2.getPage 0).pin_count = 0 ∧
    (bpm2.FetchPageImpl disk0 1).1 = some 0 ∧
    (((bpm2.FetchPageImpl disk0 1).2.1).getPage 0).pin_count = 0 := by
  decide

/-- C2: refuted on the code.  In the reachable state `bpm4` (NewPage 1;
Unpin(1, true); DeletePage 1; NewPage 2) frame 0 holds page 2 with pin count 1,
but — because `DeletePageImpl` never called `replacer_->Pin` — frame 0 is still
in the replacer and the free list is empty.  A subsequent `FetchPageImpl 3`
misses, `PickVictimFrame` takes frame 0 from the replacer, and the pinned
page 2 loses its page-table mapping: a frame pinned by one caller is evicted
before any unpin. -/
theorem pinned_frame_selected_as_victim :
    (bpm4.getPage 0).pin_count = 1 ∧
    bpm4.page_table.lookup 2 = some 0 ∧
    bpm4.free_list = [] ∧
    bpm4.replacer.frame_list = [0] ∧
    (bpm4.FetchPageImpl disk0 3).1 = some 0 ∧
    ((bpm4.FetchPageImpl disk0 3).2.1).page_table.lookup 2 = none := by
  decide

/-- C3: refuted on the code.  Deleting the unpinned page 1 from the reachable
state `bpm2` succeeds, but `DeletePageImpl` does not call `replacer_->Pin`:
afterwards (`bpm3`) frame 0 is still in the replacer's evictable set although
the page table is empty, so "evictable iff resident and pin count 0" fails,
and DeletePage did not remove the deleted frame from the evictable set. -/
theorem delete_page_leaves_frame_evictable :
    (bpm2.DeletePageImpl 1).1 = true ∧
    bpm3.replacer.frame_list = [0] ∧
    bpm3.page_table = [] := by
  decide

/-- C4: refuted on the code.  In the reachable state `bpm2` frame 0 is dirty
and unpinned.  `DeletePageImpl 1` pushes frame 0 onto the free list while its
only disk call is `DeallocatePage`: no `WritePage` is issued and the frame's
dirty bit is still set on the free list. -/
theorem delete_dirty_page_skips_writeback :
    (bpm2.getPage 0).is_dirty = true ∧
    (bpm2.getPage 0).pin_count = 0 ∧
    bpm2.DeletePageImpl 1 = (true, bpm3, [DiskOp.deallocatePage 1]) ∧
    bpm3.free_list = [0] ∧
    (bpm3.getPage 0).is_dirty = true := by
  decide

/-- C5: refuted on the code.  `DeletePageImpl` on a page id absent from the
page table returns `false` (the state is left unchanged), although the
function's own comment says "If P does not exist, return true." -/
theorem delete_absent_page_returns_false :
    bpm0.DeletePageImpl 7 = (false, bpm0, []) := by
  decide

/-- C6: refuted on the code.  The body of `FlushAllPagesImpl` is empty: on the
reachable state `bpm2`, which holds the resident dirty page 1, it issues no
disk write and leaves the dirty bit set. -/
theorem flush_all_pages_writes_nothing :
    bpm2.page_table = [(1, 0)] ∧
    (bpm2.getPage 0).is_dirty = true ∧
    bpm2.FlushAllPagesImpl = (bpm2, []) := by
  decide

/-- C7: refuted on the code.  In the reachable state `bpm2` page 1 has pin
count 0; `UnpinPageImpl` decrements `pin_count_` unconditionally and returns
`true`, driving the count to `-1` — it neither asserts nor clamps at zero. -/
theorem double_unpin_drives_pin_count_negative :
    (bpm2.getPage 0).pin_count = 0 ∧
    (bpm2.UnpinPageImpl 1 false).1 = true ∧
    (((bpm2.UnpinPageImpl 1 false).2.1).getPage 0).pin_count = -1 := by
  decide

/-- C9: characterisation of `ClockReplacer::Victim` for any state whose hand
is a valid iterator position.  (1) On an empty list it fails.  (2) On a
non-empty list it succeeds, and the unbounded C++ loop terminates: every fuel
of at least `length + 1` iterations — at most two passes of the hand, since
one pass is `length` steps — yields that same result.  (3) If, in hand-visit
order (the rotation at the hand), the list consists of set-bit entries `pre`
followed by the first clear-bit entry `(f, false)`, the victim is exactly
`f`, and the hand-visit order afterwards is the remaining entries followed by
the passed-over entries with their reference bits cleared. -/
theorem clock_victim_correct (s : ClockReplacer) (hh : s.clock_hand ≤ s.frame_list.length) :
    (s.frame_list = [] → s.Victim = none) ∧
    (s.frame_list ≠ [] → ∃ f s', s.Victim = some (f, s') ∧
       ∀ fuel, s.frame_list.length + 1 ≤ fuel →
         ClockReplacer.victimLoop fuel s.frame_list s.clock_hand
           = some (f, s'.frame_list, s'.clock_hand)) ∧
    (∀ pre f rest, rotateAt s.frame_list s.clock_hand = pre ++ (f, false) :: rest →
       (∀ e ∈ pre, e.2 = true) →
       ∃ s', s.Victim = some (f, s') ∧
         rotateAt s'.frame_list s'.clock_hand = rest ++ pre.map (fun e => (e.1, false))) := by
  refine ⟨?_, ?_, ?_⟩
  · intro h0
    simp [ClockReplacer.Victim, h0]
  · intro hne
    have hrotne : rotateAt s.frame_list s.clock_hand ≠ [] := by
      rw [← List.length_pos, rotateAt_length]
      exact List.length_pos.mpr hne
    obtain ⟨f, r, hscan⟩ := clockScanF_succeeds (s.frame_list.length + 1)
      (rotateAt s.frame_list s.clock_hand)
      (by have := countTrue_le_length (rotateAt s.frame_list s.clock_hand)
          rw [rotateAt_length] at this
          omega)
      hrotne
    obtain ⟨s', hs1, _, hs3⟩ := victim_of_scan s hh f r hscan
    exact ⟨f, s', hs1, hs3⟩
  · intro pre f rest hdec hpre
    have hprelen : pre.length < s.frame_list.length + 1 := by
      have hlen := rotateAt_length s.frame_list s.clock_hand
      rw [hdec] at hlen
      simp at hlen
      omega
    have hscan := clockScanF_firstFalse pre (s.frame_list.length + 1) f rest hprelen hpre
    rw [← hdec] at hscan
    obtain ⟨s', hs1, hs2, -⟩ := victim_of_scan s hh f _ hscan
    exact ⟨s', hs1, hs2⟩

/-- Witness for C9: on the state with entries `(0, set) (1, clear) (2, set)`
and the hand at the head, the victim is frame 1 — the first clear-bit entry at
or after the hand — and the passed-over entry 0 ends up behind entry 2 with
its bit cleared. -/
theorem clock_victim_correct_witness :
    ∃ s', ClockReplacer.Victim ⟨[(0, true), (1, false), (2, true)], 0⟩ = some (1, s') ∧
      rotateAt s'.frame_list s'.clock_hand = [(2, true), (0, false)] := by
  obtain ⟨-, -, h3⟩ :=
    clock_victim_correct ⟨[(0, true), (1, false), (2, true)], 0⟩ (by decide)
  exact h3 [(0, true)] 1 [(2, true)] (by decide) (by decide)

/-- C10: for every page id present in the page table, `FetchPageImpl` issues
no disk call at all (in particular no `ReadPage`), returns the mapped frame,
and leaves the whole frame array (payload bytes, dirty flags, page id fields,
pin counts), the page table and the free list unchanged; only the replacer's
evictable set may change. -/
theorem fetch_hit_frame_effects (s : BufferPoolManager) (disk : Int → Nat)
    (pid : Int) (f : Nat) (h : s.page_table.lookup pid = some f) :
    ∃ s', s.FetchPageImpl disk pid = (some f, s', []) ∧
      s'.pages = s.pages ∧ s'.page_table = s.page_table ∧ s'.free_list = s.free_list := by
  by_cases hpin : (s.getPage f).pin_count > 0
  · exact ⟨s, by simp [BufferPoolManager.FetchPageImpl, h, hpin], rfl, rfl, rfl⟩
  · exact ⟨{ s with replacer := s.replacer.Pin f },
      by simp [BufferPoolManager.FetchPageImpl, h, hpin], rfl, rfl, rfl⟩

/-- Witness for C10 at the reachable state `bpm2`, where page 1 sits in
frame 0. -/
theorem fetch_hit_frame_effects_witness :
    ∃ s', bpm2.FetchPageImpl disk0 1 = (some 0, s', []) ∧
      s'.pages = bpm2.pages ∧ s'.page_table = bpm2.page_table ∧
      s'.free_list = bpm2.free_list :=
  fetch_hit_frame_effects bpm2 disk0 1 0 (by decide)

end BusTub

